import Mathlib

/-!
Verification development for the ACP (agent-control-protocol) VS Code client.

The TypeScript sources are shallowly embedded: JS strings are modelled as
`List Char` (or, where only raw bytes matter, `List Nat` of UTF-8 bytes),
maps as association lists, promises/async control flow as explicit state
passing, and thrown exceptions as `Except`.  Each definition is a direct
translation of the function of the same name in the repository.
-/

/-! ## Connection Manager: `cancel` (src/acpClient.ts, AcpClientImpl.cancel)

The method body is
  if no connection: return;
  try await connection.cancel(...) catch (error) log(...).
We model the underlying RPC outcome as an arbitrary `Except String Unit`
(the rejected promise carries an error message), and model the method's own
outcome as `Except String CancelLog`: a thrown/rejected `cancel` would be
`Except.error`; the three normal returns are the three `CancelLog` values. -/

inductive CancelLog where
  /-- returned immediately because `this.connection` was null -/
  | noConnection : CancelLog
  /-- the underlying cancel RPC resolved -/
  | sent : CancelLog
  /-- the underlying cancel RPC rejected; the failure was logged -/
  | loggedFailure (message : String) : CancelLog
deriving DecidableEq, Repr

/-- Shallow embedding of `AcpClientImpl.cancel`.  `hasConnection` models
whether `this.connection` is non-null, `rpcOutcome` the settled outcome of
`this.connection.cancel(...)` for this session. -/
def AcpClientImpl.cancel (hasConnection : Bool)
    (rpcOutcome : Except String Unit) : Except String CancelLog :=
  if !hasConnection then
    .ok .noConnection
  else
    match rpcOutcome with
    | .ok _ => .ok .sent
    | .error e => .ok (.loggedFailure e)

/-! ## Connection Manager: terminal output buffer
(src/acpClient.ts, AcpClientImpl.appendTerminalOutput / trimOutputToLimit)

The terminal output is kept in `state.output`; each data chunk is appended
and then the buffer is re-trimmed to `outputByteLimit` UTF-8 bytes.  We
model the buffer at the byte level (`List Nat`): `Buffer.from(text,"utf8")`
and `slice.toString("utf8", start)` are byte-level identities for the
well-formed text kept in the buffer, so `trimOutputToLimit` acts on the
byte sequence exactly as below. -/

/-- A byte `b` is a UTF-8 continuation byte when `(b & 0b11000000) === 0b10000000`. -/
def isUtf8Continuation (b : Nat) : Bool := b &&& 192 == 128

/-- Shallow embedding of `trimOutputToLimit`. -/
def trimOutputToLimit (text : List Nat) (limit : Nat) : List Nat × Bool :=
  if text.length ≤ limit then
    (text, false)
  else
    let slice := text.drop (text.length - limit)
    (slice.dropWhile isUtf8Continuation, true)

/-- Terminal state fields touched by `appendTerminalOutput` (from
`TerminalState` in src/acpClient.ts). `outputByteLimit : Option Nat` models
the `number | null` field; the JS guard `state.outputByteLimit &&
state.outputByteLimit > 0` is false for both `null` and `0`. -/
structure TerminalState where
  output : List Nat
  truncated : Bool
  outputByteLimit : Option Nat
deriving DecidableEq, Repr

/-- Shallow embedding of `AcpClientImpl.appendTerminalOutput`. -/
def appendTerminalOutput (state : TerminalState) (chunk : List Nat) :
    TerminalState :=
  let output := state.output ++ chunk
  match state.outputByteLimit with
  | some l =>
    if l > 0 then
      let trimmed := trimOutputToLimit output l
      { state with output := trimmed.1,
                   truncated := state.truncated || trimmed.2 }
    else
      { state with output := output }
  | none => { state with output := output }

/-- Helper: the first element surviving `dropWhile p` does not satisfy `p`. -/
theorem dropWhile_head?_not {α : Type} (p : α → Bool) (l : List α)
    (x : α) (h : (l.dropWhile p).head? = some x) : p x = false := by
  induction l with
  | nil => simp at h
  | cons a l ih =>
    by_cases hp : p a = true
    · rw [List.dropWhile_cons_of_pos hp] at h
      exact ih h
    · simp only [Bool.not_eq_true] at hp
      rw [List.dropWhile_cons_of_neg (by simp [hp])] at h
      simp only [List.head?_cons, Option.some_inj] at h
      subst h
      exact hp

/-- C9: for every connection state and every outcome of the underlying
cancel RPC (resolution or rejection), `AcpClientImpl.cancel` itself
returns normally (never throws/rejects): its outcome is always `Except.ok`,
with a failing RPC merely recorded as a logged failure. -/
theorem C9_cancel_never_throws (hasConnection : Bool)
    (rpcOutcome : Except String Unit) :
    ∃ log : CancelLog,
      AcpClientImpl.cancel hasConnection rpcOutcome = .ok log ∧
      (∀ e : String, rpcOutcome = .error e →
        AcpClientImpl.cancel hasConnection rpcOutcome =
          .ok (if hasConnection then .loggedFailure e else .noConnection)) := by
  cases hasConnection <;> cases rpcOutcome <;>
    simp [AcpClientImpl.cancel]

/-- C10: with a positive byte limit, every `appendTerminalOutput` leaves at
most `limit` bytes in the buffer; when the accumulated output exceeded the
limit the kept bytes are a suffix of the accumulated bytes that does not
start with a UTF-8 continuation byte; and the `truncated` flag never goes
back from `true` to `false`. -/
theorem C10_appendTerminalOutput_invariant (st : TerminalState)
    (chunk : List Nat) (l : Nat)
    (hlim : st.outputByteLimit = some l) (hpos : 0 < l) :
    (appendTerminalOutput st chunk).output.length ≤ l ∧
    (l < (st.output ++ chunk).length →
      (appendTerminalOutput st chunk).output <:+ (st.output ++ chunk) ∧
      ∀ x, ((appendTerminalOutput st chunk).output).head? = some x →
        isUtf8Continuation x = false) ∧
    (st.truncated = true → (appendTerminalOutput st chunk).truncated = true) := by
  have hacc : appendTerminalOutput st chunk =
      { st with output := (trimOutputToLimit (st.output ++ chunk) l).1,
                truncated :=
                  st.truncated || (trimOutputToLimit (st.output ++ chunk) l).2 } := by
    simp [appendTerminalOutput, hlim, hpos]
  rw [hacc]
  unfold trimOutputToLimit
  by_cases hle : (st.output ++ chunk).length ≤ l
  · simp only [if_pos hle]
    refine ⟨hle, fun hgt => absurd hle (by omega), fun h => by simp [h]⟩
  · simp only [if_neg hle]
    push_neg at hle
    refine ⟨?_, fun _ => ⟨?_, ?_⟩, fun h => by simp [h]⟩
    · calc (((st.output ++ chunk).drop ((st.output ++ chunk).length - l)).dropWhile
            isUtf8Continuation).length
          ≤ ((st.output ++ chunk).drop ((st.output ++ chunk).length - l)).length :=
            (List.dropWhile_suffix _).length_le
        _ ≤ l := by
            rw [List.length_drop]
            omega
    · exact (List.dropWhile_suffix _).trans (List.drop_suffix _ _)
    · intro x hx
      exact dropWhile_head?_not _ _ _ hx

/-- Witness for C10 at a concrete input: limit 3, four bytes accumulated of
which the boundary byte is a continuation byte (0x80), so the kept output is
the two bytes after it. -/
theorem C10_appendTerminalOutput_invariant_witness :
    (({ output := [65], truncated := false,
        outputByteLimit := some 3 } : TerminalState).outputByteLimit = some 3) ∧
    0 < 3 ∧
    (appendTerminalOutput
      { output := [65], truncated := false, outputByteLimit := some 3 }
      [128, 66, 67]).output.length ≤ 3 := by
  refine ⟨rfl, by decide, ?_⟩
  exact (C10_appendTerminalOutput_invariant
    { output := [65], truncated := false, outputByteLimit := some 3 }
    [128, 66, 67] 3 rfl (by decide)).1

/-! ## Connection Manager: `loadSession` (src/acpClient.ts, AcpClientImpl.loadSession)

`loadSession` subscribes to `onSessionUpdate`, pushing every notification
whose `sessionId` equals the requested one into a local array, issues the
load RPC, and on settlement returns the collected array (unsubscribing in
`finally`).  We model the ordered sequence of notifications fired on the
stream between the subscription and the settling of the RPC as the list
`fired`; the subscription callback is the fold step below.  Notifications
fired before the subscription or after the `finally` unsubscription are by
construction not part of `fired`. -/

/-- A session-update notification: a session id tag plus an arbitrary
update payload (the payload is never inspected by `loadSession`). -/
structure SessionNotification (υ : Type) where
  sessionId : String
  update : υ
deriving DecidableEq, Repr

/-- Shallow embedding of the collection performed by
`AcpClientImpl.loadSession`: fold the subscription callback
(push the notification iff its session id matches) over the fired
notifications, starting from the empty `notifications` array. -/
def loadSessionNotifications {υ : Type} (sessionId : String)
    (fired : List (SessionNotification υ)) : List (SessionNotification υ) :=
  fired.foldl (fun acc n => if n.sessionId = sessionId then acc ++ [n] else acc) []

theorem loadSession_foldl_filter {υ : Type} (sessionId : String)
    (fired : List (SessionNotification υ))
    (acc : List (SessionNotification υ)) :
    fired.foldl (fun a n => if n.sessionId = sessionId then a ++ [n] else a) acc =
      acc ++ fired.filter (fun n => n.sessionId = sessionId) := by
  induction fired generalizing acc with
  | nil => simp
  | cons n rest ih =>
    by_cases h : n.sessionId = sessionId
    · simp [List.foldl_cons, h, ih]
    · simp [List.foldl_cons, h, ih]

/-- C2: the list returned by `loadSession` is exactly the subsequence of the
notifications fired during the call that carry the requested session id:
it equals the filter of the fired sequence (hence keeps emission order, as a
sublist of it), a notification is in it iff it was fired with that session
id, and it contains nothing tagged with another session id. -/
theorem C2_loadSession_collects_exactly {υ : Type} (sessionId : String)
    (fired : List (SessionNotification υ)) :
    loadSessionNotifications sessionId fired =
      fired.filter (fun n => n.sessionId = sessionId) ∧
    (loadSessionNotifications sessionId fired).Sublist fired ∧
    (∀ n : SessionNotification υ,
      n ∈ loadSessionNotifications sessionId fired ↔
        n ∈ fired ∧ n.sessionId = sessionId) := by
  have hfil : loadSessionNotifications sessionId fired =
      fired.filter (fun n => n.sessionId = sessionId) := by
    simpa using loadSession_foldl_filter sessionId fired []
  refine ⟨hfil, ?_, ?_⟩
  · rw [hfil]; exact List.filter_sublist _
  · intro n
    rw [hfil]
    simp [List.mem_filter]

/-! ## Diff engine (chatRenderingUtils: `toInlineDiff`, `buildDiffStats`)

Texts are modelled as `List Char`.  `toInlineDiff` normalizes line endings
(`text.replace(/\r\n?/g, "\n")`), returns the empty result when the
normalized texts are equal, otherwise splits both texts on `"\n"`, fills
the suffix-LCS table bottom-up (`lcs[i][j]` is the LCS length of
`oldLines[i..]` and `newLines[j..]`), and walks it top-down emitting
`common`/`remove`/`add` operations, preferring `remove` when
`lcs[i+1][j] >= lcs[i][j+1]`.  We embed the table through its defining
recurrence `lcsLen` (the bottom-up array is its memoization) and the walk
as `diffScript`; `toInlineDiffScript` is the full function up to the point
where the script is rendered to a unified-diff string. -/

/-- Line-ending normalization `text.replace(/\r\n?/g, "\n")`:
every `"\r\n"` pair and every lone `"\r"` becomes `"\n"`. -/
def normalizeEol : List Char → List Char
  | [] => []
  | '\r' :: '\n' :: rest => '\n' :: normalizeEol rest
  | '\r' :: rest => '\n' :: normalizeEol rest
  | c :: rest => c :: normalizeEol rest

/-- JS `text.split("\n")`: always at least one (possibly empty) segment. -/
def splitLines : List Char → List (List Char)
  | [] => [[]]
  | '\n' :: rest => [] :: splitLines rest
  | c :: rest =>
    match splitLines rest with
    | [] => [[c]]
    | l :: ls => (c :: l) :: ls

/-- Inverse of `splitLines`: interleave the segments with `"\n"`. -/
def joinLines : List (List Char) → List Char
  | [] => []
  | [l] => l
  | l :: ls => l ++ '\n' :: joinLines ls

/-- One operation of the edit script produced by the LCS walk. -/
inductive DiffOp (α : Type) where
  | common (line : α)
  | remove (line : α)
  | add (line : α)
deriving DecidableEq, Repr

section DiffCore

variable {α : Type} [DecidableEq α]

/-- The recurrence filled into the `lcs` table by `toInlineDiff`
(`lcs[i][j] = lcsLen oldLines[i..] newLines[j..]`). -/
def lcsLen : List α → List α → Nat
  | [], _ => 0
  | _ :: _, [] => 0
  | x :: xs, y :: ys =>
    if x = y then lcsLen xs ys + 1
    else max (lcsLen xs (y :: ys)) (lcsLen (x :: xs) ys)
termination_by xs ys => xs.length + ys.length

/-- The top-down script walk of `toInlineDiff`: `common` on equal heads,
otherwise `remove` when `lcs[i+1][j] >= lcs[i][j+1]` (remove preferred on
ties), then the two drain loops once either side is exhausted. -/
def diffScript : List α → List α → List (DiffOp α)
  | [], ys => ys.map .add
  | x :: xs, [] => (x :: xs).map .remove
  | x :: xs, y :: ys =>
    if x = y then .common x :: diffScript xs ys
    else if lcsLen xs (y :: ys) ≥ lcsLen (x :: xs) ys then
      .remove x :: diffScript xs (y :: ys)
    else
      .add y :: diffScript (x :: xs) ys
termination_by xs ys => xs.length + ys.length

/-- The counting walk of `buildDiffStats`: identical traversal, returning
`(added, removed)` with the drain loops contributing the leftover lengths. -/
def diffCounts : List α → List α → Nat × Nat
  | [], ys => (ys.length, 0)
  | x :: xs, [] => (0, (x :: xs).length)
  | x :: xs, y :: ys =>
    if x = y then diffCounts xs ys
    else if lcsLen xs (y :: ys) ≥ lcsLen (x :: xs) ys then
      ((diffCounts xs (y :: ys)).1, (diffCounts xs (y :: ys)).2 + 1)
    else
      ((diffCounts (x :: xs) ys).1 + 1, (diffCounts (x :: xs) ys).2)
termination_by xs ys => xs.length + ys.length

/-- The `add` and `common` lines of a script, in script order. -/
def addCommonLines (s : List (DiffOp α)) : List α :=
  s.filterMap fun op =>
    match op with
    | .common l => some l
    | .add l => some l
    | .remove _ => none

/-- The `remove` and `common` lines of a script, in script order. -/
def removeCommonLines (s : List (DiffOp α)) : List α :=
  s.filterMap fun op =>
    match op with
    | .common l => some l
    | .remove l => some l
    | .add _ => none

end DiffCore

/-- Negation of the `part.type !== "common"` test used by the
`hasChanges` check. -/
def DiffOp.isCommon {α : Type} : DiffOp α → Bool
  | .common _ => true
  | .remove _ => false
  | .add _ => false

/-- Shallow embedding of `toInlineDiff` up to rendering: the edit script it
produces (the rendered string is empty iff this script is empty).  Both
early returns of the source (`original === updated` and the negated
`hasChanges` check, i.e. all operations common) yield the empty script. -/
def toInlineDiffScript (oldText newText : List Char) : List (DiffOp (List Char)) :=
  let original := normalizeEol oldText
  let updated := normalizeEol newText
  if original = updated then []
  else
    let script := diffScript (splitLines original) (splitLines updated)
    if script.all DiffOp.isCommon then []
    else script

/-- Shallow embedding of `buildDiffStats` (returns `(added, removed)`). -/
def buildDiffStats (oldText newText : List Char) : Nat × Nat :=
  if normalizeEol oldText = normalizeEol newText then (0, 0)
  else diffCounts (splitLines (normalizeEol oldText))
    (splitLines (normalizeEol newText))

theorem diffScript_addCommon {α : Type} [DecidableEq α] (xs ys : List α) :
    addCommonLines (diffScript xs ys) = ys := by
  induction xs, ys using diffScript.induct with
  | case1 ys =>
    simp [diffScript, addCommonLines, List.filterMap_map, Function.comp_def]
  | case2 x xs =>
    simp [diffScript, addCommonLines, List.filterMap_map, Function.comp_def]
  | case3 xs y ys ih =>
    simp only [diffScript, if_pos rfl]
    simpa [addCommonLines] using ih
  | case4 x xs y ys hne hge ih =>
    simp only [diffScript, if_neg hne, if_pos hge]
    simpa [addCommonLines] using ih
  | case5 x xs y ys hne hlt ih =>
    simp only [diffScript, if_neg hne, if_neg hlt]
    simpa [addCommonLines] using ih

theorem diffScript_removeCommon {α : Type} [DecidableEq α] (xs ys : List α) :
    removeCommonLines (diffScript xs ys) = xs := by
  induction xs, ys using diffScript.induct with
  | case1 ys =>
    simp [diffScript, removeCommonLines, List.filterMap_map, Function.comp_def]
  | case2 x xs =>
    simp [diffScript, removeCommonLines, List.filterMap_map, Function.comp_def]
  | case3 xs y ys ih =>
    simp only [diffScript, if_pos rfl]
    simpa [removeCommonLines] using ih
  | case4 x xs y ys hne hge ih =>
    simp only [diffScript, if_neg hne, if_pos hge]
    simpa [removeCommonLines] using ih
  | case5 x xs y ys hne hlt ih =>
    simp only [diffScript, if_neg hne, if_neg hlt]
    simpa [removeCommonLines] using ih

theorem splitLines_cons_of_ne (c : Char) (rest : List Char) (hne : ¬ c = '\n')
    (l : List Char) (ls : List (List Char)) (hsp : splitLines rest = l :: ls) :
    splitLines (c :: rest) = (c :: l) :: ls := by
  rw [splitLines.eq_def]
  cases rest with
  | nil =>
    simp only [splitLines] at hsp
    cases hsp
    simp [hne, splitLines]
  | cons d rs =>
    by_cases hd : d = '\n' <;> simp_all

theorem splitLines_ne_nil (cs : List Char) : splitLines cs ≠ [] := by
  induction cs using splitLines.induct with
  | case1 => simp [splitLines]
  | case2 rest ih => simp [splitLines]
  | case3 c rest hne hsp ih => exact absurd hsp ih
  | case4 c rest hne l ls hsp ih =>
    rw [splitLines_cons_of_ne c rest hne l ls hsp]
    simp

theorem joinLines_splitLines (cs : List Char) : joinLines (splitLines cs) = cs := by
  induction cs using splitLines.induct with
  | case1 => simp [splitLines, joinLines]
  | case2 rest ih =>
    obtain ⟨l, ls, hsp⟩ := List.exists_cons_of_ne_nil (splitLines_ne_nil rest)
    simp only [splitLines, hsp] at ih ⊢
    cases ls <;> simp_all [joinLines]
  | case3 c rest hne hsp ih => exact absurd hsp (splitLines_ne_nil rest)
  | case4 c rest hne l ls hsp ih =>
    rw [splitLines_cons_of_ne c rest hne l ls hsp]
    rw [hsp] at ih
    cases ls <;> simp_all [joinLines]

theorem addCommon_eq_removeCommon_of_allCommon {α : Type} [DecidableEq α]
    (s : List (DiffOp α)) (h : s.all DiffOp.isCommon = true) :
    addCommonLines s = removeCommonLines s := by
  induction s with
  | nil => rfl
  | cons op rest ih =>
    simp only [List.all_cons, Bool.and_eq_true] at h
    cases op with
    | common l =>
      have hrec := ih h.2
      simp [addCommonLines, removeCommonLines] at hrec ⊢
      exact hrec
    | remove l => simp [DiffOp.isCommon] at h
    | add l => simp [DiffOp.isCommon] at h

/-- When the normalized texts differ, the script `toInlineDiff` walks is
the raw `diffScript` of the normalized line lists: the all-common early
return can never fire for distinct texts. -/
theorem toInlineDiffScript_of_ne (oldText newText : List Char)
    (h : normalizeEol oldText ≠ normalizeEol newText) :
    toInlineDiffScript oldText newText =
      diffScript (splitLines (normalizeEol oldText))
        (splitLines (normalizeEol newText)) := by
  have hnall : ¬ ((diffScript (splitLines (normalizeEol oldText))
      (splitLines (normalizeEol newText))).all DiffOp.isCommon = true) := by
    intro hall
    have heq := addCommon_eq_removeCommon_of_allCommon _ hall
    rw [diffScript_addCommon, diffScript_removeCommon] at heq
    apply h
    rw [← joinLines_splitLines (normalizeEol oldText),
      ← joinLines_splitLines (normalizeEol newText), heq]
  simp only [toInlineDiffScript, if_neg h, if_neg hnall]

/-- C3 counterexample: the round-trip fails as literally stated.  For
old text "a\r\n" and new text "a\n" the two texts normalize equally, so the
produced script is empty and its add/common lines concatenate to "" rather
than the new text; and for old text "" and new text "a\r\n" the add/common
lines concatenate to the normalized "a\n", not the new text "a\r\n". -/
theorem C3_roundtrip_counterexample :
    (toInlineDiffScript ['a', '\r', '\n'] ['a', '\n'] = [] ∧
      joinLines (addCommonLines (toInlineDiffScript ['a', '\r', '\n'] ['a', '\n'])) ≠
        ['a', '\n']) ∧
    joinLines (addCommonLines (toInlineDiffScript [] ['a', '\r', '\n'])) ≠
      ['a', '\r', '\n'] := by
  refine ⟨⟨by decide, by decide⟩, ?_⟩
  have h : toInlineDiffScript [] ['a', '\r', '\n'] =
      diffScript (splitLines (normalizeEol []))
        (splitLines (normalizeEol ['a', '\r', '\n'])) :=
    toInlineDiffScript_of_ne _ _ (by decide)
  rw [h]
  simp [normalizeEol, splitLines, diffScript, lcsLen, addCommonLines, joinLines]

/-- C3 (amended): the edit script round-trips up to line-ending
normalization, on texts that differ after normalization: its add/common
lines joined with newlines give the normalized new text and its
remove/common lines give the normalized old text; when the two texts are
identical after normalization the produced script is empty. -/
theorem C3_diff_roundtrip (oldText newText : List Char) :
    (normalizeEol oldText = normalizeEol newText →
      toInlineDiffScript oldText newText = []) ∧
    (normalizeEol oldText ≠ normalizeEol newText →
      joinLines (addCommonLines (toInlineDiffScript oldText newText)) =
        normalizeEol newText ∧
      joinLines (removeCommonLines (toInlineDiffScript oldText newText)) =
        normalizeEol oldText) := by
  constructor
  · intro h
    simp [toInlineDiffScript, h]
  · intro h
    rw [toInlineDiffScript_of_ne _ _ h, diffScript_addCommon,
      diffScript_removeCommon, joinLines_splitLines, joinLines_splitLines]
    exact ⟨rfl, rfl⟩

/-- Witness for C3 at a concrete input pair (old "a", new "b"). -/
theorem C3_diff_roundtrip_witness :
    normalizeEol ['a'] ≠ normalizeEol ['b'] ∧
    joinLines (addCommonLines (toInlineDiffScript ['a'] ['b'])) =
      normalizeEol ['b'] ∧
    joinLines (removeCommonLines (toInlineDiffScript ['a'] ['b'])) =
      normalizeEol ['a'] :=
  ⟨by decide, (C3_diff_roundtrip ['a'] ['b']).2 (by decide)⟩

/-- C4 counterexample: for old "a\nb\n" and new "a\nc\nb\n" the produced
script is not the three operations the claim states: splitting on "\n"
yields a trailing empty segment after the final newline, so the script
carries a fourth operation, common "". -/
theorem C4_determinism_counterexample :
    toInlineDiffScript ['a', '\n', 'b', '\n'] ['a', '\n', 'c', '\n', 'b', '\n'] =
      [.common ['a'], .add ['c'], .common ['b'], .common []] ∧
    toInlineDiffScript ['a', '\n', 'b', '\n'] ['a', '\n', 'c', '\n', 'b', '\n'] ≠
      [.common ['a'], .add ['c'], .common ['b']] := by
  have h : toInlineDiffScript ['a', '\n', 'b', '\n'] ['a', '\n', 'c', '\n', 'b', '\n'] =
      diffScript (splitLines (normalizeEol ['a', '\n', 'b', '\n']))
        (splitLines (normalizeEol ['a', '\n', 'c', '\n', 'b', '\n'])) :=
    toInlineDiffScript_of_ne _ _ (by decide)
  rw [h]
  constructor
  · simp [normalizeEol, splitLines, diffScript, lcsLen]
  · simp [normalizeEol, splitLines, diffScript, lcsLen]

/-- C4 (amended): on old "a\nb\n", new "a\nc\nb\n" the script is
common "a", add "c", common "b", common "" (the final empty segment coming
from the trailing newline; the insertion is placed before the unchanged
tail), the counts are added 1, removed 0; and in general, whenever the two
DP successor scores are equal at a mismatch, the walk emits the remove
operation before the add operation at that position. -/
theorem C4_diff_determinism :
    toInlineDiffScript ['a', '\n', 'b', '\n'] ['a', '\n', 'c', '\n', 'b', '\n'] =
      [.common ['a'], .add ['c'], .common ['b'], .common []] ∧
    buildDiffStats ['a', '\n', 'b', '\n'] ['a', '\n', 'c', '\n', 'b', '\n'] = (1, 0) ∧
    ∀ (α : Type) [DecidableEq α] (x : α) (xs : List α) (y : α) (ys : List α),
      x ≠ y → lcsLen xs (y :: ys) = lcsLen (x :: xs) ys →
      diffScript (x :: xs) (y :: ys) = .remove x :: diffScript xs (y :: ys) := by
  refine ⟨?_, ?_, ?_⟩
  · rw [toInlineDiffScript_of_ne _ _ (by decide)]
    simp [normalizeEol, splitLines, diffScript, lcsLen]
  · simp [buildDiffStats, normalizeEol, splitLines, diffCounts, lcsLen]
  · intro α _ x xs y ys hne htie
    rw [diffScript.eq_def]
    simp [hne, htie]

/-- Witness for C4's tie-break rule at a concrete input: lines 0 and 1
differ and the two successor scores are both 0, so remove is emitted first. -/
theorem C4_diff_determinism_witness :
    ((0 : Nat) ≠ 1) ∧ lcsLen ([] : List Nat) [1] = lcsLen [0] [] ∧
    diffScript [0] [1] = [.remove 0, .add 1] := by
  have htie : lcsLen ([] : List Nat) [1] = lcsLen [0] [] := by
    simp [lcsLen]
  refine ⟨by decide, htie, ?_⟩
  rw [C4_diff_determinism.2.2 Nat 0 [] 1 [] (by decide) htie]
  simp [diffScript]

/-- Witness for C9 at a concrete input: a live connection whose cancel RPC
rejects with message "boom" still returns normally, logging the failure. -/
theorem C9_cancel_never_throws_witness :
    AcpClientImpl.cancel true (.error "boom") = .ok (.loggedFailure "boom") := by
  obtain ⟨log, hlog, hspec⟩ := C9_cancel_never_throws true (.error "boom")
  simpa using hspec "boom" rfl

/-! ## Permission Prompt Coordinator (src/permissionPrompts.ts,
PermissionPromptManager)

The manager keeps a single `sessionContext : SessionChatContext | null` and
a single `pendingPrompt : PendingPrompt | null`.  We model the UI handles
of the context (response stream, labels, cancellation token) away and keep
its `sessionId`; a pending prompt keeps its `promptId`, `sessionId`, its
option-id table (the keys of `optionsById`) and `reqIndex`, the index of
the `requestPermission` call whose promise its `resolve` settles.  Resolving
is modelled as an emitted `(reqIndex, outcome)` event. -/

/-- The session chat context recorded by `bindSessionResponse` (UI stream
and token omitted; only the session id is consulted by the id/resolve
logic under scrutiny). -/
structure SessionChatContext where
  sessionId : String
deriving DecidableEq, Repr

/-- A pending permission prompt (resolver modelled by `reqIndex`). -/
structure PendingPrompt where
  promptId : String
  sessionId : String
  optionIds : List String
  reqIndex : Nat
deriving DecidableEq, Repr

/-- Outcome delivered to a `requestPermission` promise. -/
inductive PermissionOutcome where
  | selected (optionId : String)
  | cancelled
deriving DecidableEq, Repr

/-- Mutable fields of `PermissionPromptManager`. -/
structure PPMState where
  sessionContext : Option SessionChatContext
  pendingPrompt : Option PendingPrompt
deriving DecidableEq, Repr

/-- Shallow embedding of `PermissionPromptManager.createPromptId`, which
returns the template string of `acp-permission-` and
`this.sessionContext?.sessionId` (the JS template renders a missing
context as "undefined"). -/
def createPromptId (st : PPMState) : String :=
  match st.sessionContext with
  | some c => "acp-permission-" ++ c.sessionId
  | none => "acp-permission-undefined"

/-- Shallow embedding of the registration performed by
`PermissionPromptManager.requestPermission` when a context is bound:
allocate the prompt id, build the pending prompt and store it in
`this.pendingPrompt` (the modal fallback for an unbound context registers
nothing).  Returns the allocated prompt id, if any. -/
def requestPermissionRegister (st : PPMState) (reqSessionId : String)
    (optionIds : List String) (reqIndex : Nat) : PPMState × Option String :=
  match st.sessionContext with
  | none => (st, none)
  | some _ =>
    let promptId := createPromptId st
    let pending : PendingPrompt :=
      { promptId := promptId, sessionId := reqSessionId,
        optionIds := optionIds, reqIndex := reqIndex }
    ({ st with pendingPrompt := some pending }, some promptId)

/-- Shallow embedding of the private `resolvePrompt`: its `promptId`
argument is never compared against the stored prompt; whatever prompt is
in `this.pendingPrompt` gets cleared and resolved. -/
def resolvePrompt (st : PPMState) (outcome : PermissionOutcome) :
    PPMState × List (Nat × PermissionOutcome) :=
  match st.pendingPrompt with
  | none => (st, [])
  | some pending =>
    ({ st with pendingPrompt := none }, [(pending.reqIndex, outcome)])

/-- Shallow embedding of `PermissionPromptManager.resolveFromCommand`.
Falsy (empty) payload fields are rejected; then the only validation
performed against the outstanding prompt is `pending.sessionId ===
payload.sessionId` before resolving with the selected option (an unknown
option id resolves as cancelled, as does an absent one). -/
def resolveFromCommand (st : PPMState) (promptId sessionId : String)
    (optionId : Option String) : PPMState × List (Nat × PermissionOutcome) :=
  if promptId = "" ∨ sessionId = "" then (st, [])
  else
    match st.pendingPrompt with
    | none => (st, [])
    | some pending =>
      if pending.sessionId ≠ sessionId then (st, [])
      else
        match optionId with
        | some oid =>
          if oid ∈ pending.optionIds then resolvePrompt st (.selected oid)
          else resolvePrompt st .cancelled
        | none => resolvePrompt st .cancelled

/-- C1 evaluated on the code: with a context bound for session "s1", two
successive `requestPermission` registrations allocate the same prompt id
(`createPromptId` is constant per bound session), and `resolveFromCommand`
with a payload whose prompt id matches no outstanding prompt, but whose
session id matches, resolves the outstanding prompt instead of being a
no-op. -/
theorem C1_promptId_collision_and_stale_resolve :
    (requestPermissionRegister
        { sessionContext := some { sessionId := "s1" }, pendingPrompt := none }
        "s1" ["allow"] 0).2 = some "acp-permission-s1" ∧
    (requestPermissionRegister
        (requestPermissionRegister
          { sessionContext := some { sessionId := "s1" }, pendingPrompt := none }
          "s1" ["allow"] 0).1
        "s1" ["allow"] 1).2 = some "acp-permission-s1" ∧
    ("stale-prompt-id" ≠ ("acp-permission-s1" : String)) ∧
    resolveFromCommand
        (requestPermissionRegister
          (requestPermissionRegister
            { sessionContext := some { sessionId := "s1" }, pendingPrompt := none }
            "s1" ["allow"] 0).1
          "s1" ["allow"] 1).1
        "stale-prompt-id" "s1" (some "allow") =
      ({ sessionContext := some { sessionId := "s1" }, pendingPrompt := none },
       [(1, .selected "allow")]) := by
  refine ⟨by decide, by decide, by decide, by decide⟩

/-! ## Session Manager (src/acpSessionManager.ts, SessionManager.createOrGet /
getActive, with src/chatIdentifiers.ts decode/create helpers)

Resources are VS Code URIs; we keep the two components consulted by the
code (`scheme`, `path`, with `toString` their joining).  The active-session
map and the alias map are modelled as association lists with
newest-binding-first lookup.  The `createOrGet` branch for non-ephemeral
resources (disk lookup + `loadSession`) is not needed by the claim about
ephemeral identity commit and is not modelled. -/

/-- Boolean prefix test on character lists (JS `String.prototype.startsWith`). -/
def listIsPrefixB : List Char → List Char → Bool
  | [], _ => true
  | _ :: _, [] => false
  | a :: as, b :: bs => a = b && listIsPrefixB as bs

/-- The parts of a `vscode.Uri` the session manager consults. -/
structure VsUri where
  scheme : String
  path : String
deriving DecidableEq, Repr

/-- Uri.toString(), used as the map key for untitled resources. -/
def uriToString (r : VsUri) : String := r.scheme ++ ":" ++ r.path

/-- chatIdentifiers `createSessionUri`: the stable resource derived from the
protocol session id. -/
def createSessionUri (agentId sessionId : String) : VsUri :=
  { scheme := "acp-" ++ agentId, path := "/" ++ sessionId }

/-- chatIdentifiers `decodeVscodeResource().sessionId`: the path without its
leading slash. -/
def decodeSessionId (r : VsUri) : String := ⟨r.path.data.drop 1⟩

/-- chatIdentifiers `decodeVscodeResource().isUntitled`: the decoded session
id starts with "untitled-". -/
def decodeIsUntitled (r : VsUri) : Bool :=
  listIsPrefixB "untitled-".data (decodeSessionId r).data

/-- The Session fields constructed by `createOrGet` (status, title and
timestamps are irrelevant to identity resolution and omitted). -/
structure SMSession where
  vscodeResource : VsUri
  acpSessionId : String
  modeId : String
  modelId : String
  cwd : String
deriving DecidableEq, Repr

/-- The `activeSessions` and `sessionAliases` maps of `SessionManager`. -/
structure SMState where
  activeSessions : List (String × SMSession)
  sessionAliases : List (String × String)
deriving DecidableEq, Repr

/-- SessionManager.getActiveKey: untitled resources key by their full URI
string, others by their decoded session id. -/
def getActiveKey (r : VsUri) : String :=
  if decodeIsUntitled r then uriToString r else decodeSessionId r

/-- SessionManager.resolveActiveKey: follow the alias table, defaulting to
the raw key. -/
def resolveActiveKey (st : SMState) (r : VsUri) : String :=
  (List.lookup (getActiveKey r) st.sessionAliases).getD (getActiveKey r)

/-- SessionManager.getActive. -/
def getActive (st : SMState) (r : VsUri) : Option SMSession :=
  List.lookup (resolveActiveKey st r) st.activeSessions

/-- The response of `client.createSession` consulted by `createOrGet`. -/
structure NewSessionResponse where
  sessionId : String
  currentModeId : Option String
  currentModelId : Option String
deriving DecidableEq, Repr

/-- Result of a `createOrGet` call: the next manager state, the returned
session, whether `client.createSession` was invoked, and the identity-commit
change event (original, modified) fired, if any. -/
structure CreateOrGetResult where
  state : SMState
  session : SMSession
  createdNewSession : Bool
  changeEvent : Option (SMSession × SMSession)
deriving DecidableEq, Repr

/-- Shallow embedding of the ephemeral (untitled) branch of
`SessionManager.createOrGet`: if the resolved key has an active session,
return it; otherwise create a protocol session (`resp` is the response),
construct the Session keyed by the new protocol session id under its stable
resource, register the alias from the ephemeral key, and fire the
identity-commit event with the expected-original view of the new session
under the ephemeral resource. -/
def createOrGetUntitled (agentId : String) (st : SMState) (r : VsUri)
    (resp : NewSessionResponse) (workspaceCwd : String) : CreateOrGetResult :=
  match List.lookup (resolveActiveKey st r) st.activeSessions with
  | some existing =>
    { state := st, session := existing, createdNewSession := false,
      changeEvent := none }
  | none =>
    let stableResource := createSessionUri agentId resp.sessionId
    let session : SMSession :=
      { vscodeResource := stableResource, acpSessionId := resp.sessionId,
        modeId := resp.currentModeId.getD "",
        modelId := resp.currentModelId.getD "", cwd := workspaceCwd }
    let aliasKey := getActiveKey r
    let st' : SMState :=
      { activeSessions := (resp.sessionId, session) :: st.activeSessions,
        sessionAliases := (aliasKey, resp.sessionId) :: st.sessionAliases }
    let expectedOriginal : SMSession := { session with vscodeResource := r }
    { state := st', session := session, createdNewSession := true,
      changeEvent := some (expectedOriginal, session) }

/-- C6: creating a session from an ephemeral resource with no active
session registers the ephemeral-key alias and fires the identity-commit
event (original keyed by the ephemeral resource, modified the committed
session); afterwards both `getActive` and a repeated `createOrGet` on the
same ephemeral resource resolve through the alias to the same committed
session, with no second protocol session created and the manager state
unchanged. -/
theorem C6_session_identity_commit (agentId : String) (st : SMState)
    (r : VsUri) (resp resp₂ : NewSessionResponse) (workspaceCwd cwd₂ : String)
    (hunt : decodeIsUntitled r = true)
    (hnone : getActive st r = none) :
    (createOrGetUntitled agentId st r resp workspaceCwd).createdNewSession = true ∧
    (createOrGetUntitled agentId st r resp workspaceCwd).changeEvent =
      some ({ (createOrGetUntitled agentId st r resp workspaceCwd).session with
                vscodeResource := r },
            (createOrGetUntitled agentId st r resp workspaceCwd).session) ∧
    List.lookup (getActiveKey r)
      (createOrGetUntitled agentId st r resp workspaceCwd).state.sessionAliases =
      some resp.sessionId ∧
    getActive (createOrGetUntitled agentId st r resp workspaceCwd).state r =
      some (createOrGetUntitled agentId st r resp workspaceCwd).session ∧
    createOrGetUntitled agentId
        (createOrGetUntitled agentId st r resp workspaceCwd).state r resp₂ cwd₂ =
      { state := (createOrGetUntitled agentId st r resp workspaceCwd).state,
        session := (createOrGetUntitled agentId st r resp workspaceCwd).session,
        createdNewSession := false, changeEvent := none } := by
  simp only [getActive] at hnone
  have hres : createOrGetUntitled agentId st r resp workspaceCwd =
      { state :=
          { activeSessions :=
              (resp.sessionId,
                { vscodeResource := createSessionUri agentId resp.sessionId,
                  acpSessionId := resp.sessionId,
                  modeId := resp.currentModeId.getD "",
                  modelId := resp.currentModelId.getD "",
                  cwd := workspaceCwd }) :: st.activeSessions,
            sessionAliases := (getActiveKey r, resp.sessionId) :: st.sessionAliases },
        session :=
          { vscodeResource := createSessionUri agentId resp.sessionId,
            acpSessionId := resp.sessionId,
            modeId := resp.currentModeId.getD "",
            modelId := resp.currentModelId.getD "",
            cwd := workspaceCwd },
        createdNewSession := true,
        changeEvent :=
          some ({ vscodeResource := r, acpSessionId := resp.sessionId,
                  modeId := resp.currentModeId.getD "",
                  modelId := resp.currentModelId.getD "",
                  cwd := workspaceCwd },
                { vscodeResource := createSessionUri agentId resp.sessionId,
                  acpSessionId := resp.sessionId,
                  modeId := resp.currentModeId.getD "",
                  modelId := resp.currentModelId.getD "",
                  cwd := workspaceCwd }) } := by
    rw [createOrGetUntitled, hnone]
  have hresolve : resolveActiveKey
      (createOrGetUntitled agentId st r resp workspaceCwd).state r = resp.sessionId := by
    rw [hres]
    simp [resolveActiveKey, List.lookup]
  refine ⟨by rw [hres], by rw [hres], by rw [hres]; simp [List.lookup], ?_, ?_⟩
  · simp only [getActive, hresolve]
    rw [hres]
    simp [List.lookup]
  · rw [createOrGetUntitled.eq_def]
    have hmem : List.lookup (resolveActiveKey
        (createOrGetUntitled agentId st r resp workspaceCwd).state r)
        (createOrGetUntitled agentId st r resp workspaceCwd).state.activeSessions =
        some (createOrGetUntitled agentId st r resp workspaceCwd).session := by
      rw [hresolve]
      rw [hres]
      simp [List.lookup]
    rw [hmem]

/-- Witness for C6 at a concrete input: an untitled resource, empty manager
state and a protocol session id "sess-9". -/
theorem C6_session_identity_commit_witness :
    decodeIsUntitled { scheme := "untitled", path := "/untitled-7" } = true ∧
    getActive { activeSessions := [], sessionAliases := [] }
      { scheme := "untitled", path := "/untitled-7" } = none ∧
    (createOrGetUntitled "gemini" { activeSessions := [], sessionAliases := [] }
      { scheme := "untitled", path := "/untitled-7" }
      { sessionId := "sess-9", currentModeId := none, currentModelId := none }
      "/ws").createdNewSession = true := by
  refine ⟨by decide, by decide, ?_⟩
  exact (C6_session_identity_commit "gemini"
    { activeSessions := [], sessionAliases := [] }
    { scheme := "untitled", path := "/untitled-7" }
    { sessionId := "sess-9", currentModeId := none, currentModelId := none }
    { sessionId := "sess-9", currentModeId := none, currentModelId := none }
    "/ws" "/ws" (by decide) (by decide)).1

/-! ## Chat participant: in-flight request lifecycle
(AcpChatParticipant.handleRequest / cancelPendingRequest /
refreshPermissionContext, with Session.pendingRequest from
acpSessionManager)

A Session's `pendingRequest` holds a cancellation token source and an
optional permission-context disposable.  We identify cancellation sources
and permission bindings by numeric ids, and track as a ledger the external
effects the participant performs on them: which sources were `.cancel()`ed,
which bindings were `.dispose()`d, which record ids were retired by the
`finally` block of `handleRequest`, plus every record id ever installed.
The operations below are the only writers of `session.pendingRequest`. -/

/-- Session.pendingRequest record: cancellation source and optional
permission binding. -/
structure InFlight where
  cancelId : Nat
  permId : Option Nat
deriving DecidableEq, Repr

/-- The session's in-flight slot plus the effect ledger. -/
structure InFlightLedger where
  pending : Option InFlight
  cancelled : List Nat
  disposed : List Nat
  retired : List Nat
  created : List Nat
deriving DecidableEq, Repr

/-- Shallow embedding of `AcpChatParticipant.cancelPendingRequest`:
cancel the pending record's source, dispose its permission binding if any,
clear the slot. -/
def cancelPendingRequest (s : InFlightLedger) : InFlightLedger :=
  match s.pending with
  | none => s
  | some pending =>
    { s with
      cancelled := pending.cancelId :: s.cancelled,
      disposed :=
        match pending.permId with
        | some p => p :: s.disposed
        | none => s.disposed,
      pending := none }

/-- Shallow embedding of the prompt-start prefix of
`AcpChatParticipant.handleRequest`: `cancelPendingRequest(session)` runs
first, then a fresh record with a new cancellation source (and no
permission binding yet) is installed as `session.pendingRequest`. -/
def startPrompt (s : InFlightLedger) (c : Nat) : InFlightLedger :=
  let s1 := cancelPendingRequest s
  { s1 with pending := some { cancelId := c, permId := none },
            created := c :: s1.created }

/-- Shallow embedding of `AcpChatParticipant.refreshPermissionContext`:
dispose the current binding, then bind anew when the session has a
protocol session id. -/
def refreshPermissionContext (s : InFlightLedger) (hasAcpSessionId : Bool)
    (newPerm : Nat) : InFlightLedger :=
  match s.pending with
  | none => s
  | some pending =>
    let disposed :=
      match pending.permId with
      | some p => p :: s.disposed
      | none => s.disposed
    if hasAcpSessionId then
      { s with disposed := disposed,
               pending := some { pending with permId := some newPerm } }
    else
      { s with disposed := disposed,
               pending := some { pending with permId := none } }

/-- Shallow embedding of the `finally` block of `handleRequest`: dispose
the pending permission binding and clear the slot (the record is retired
without cancelling its source). -/
def finishRequest (s : InFlightLedger) : InFlightLedger :=
  match s.pending with
  | none => s
  | some pending =>
    { s with
      disposed :=
        match pending.permId with
        | some p => p :: s.disposed
        | none => s.disposed,
      retired := pending.cancelId :: s.retired,
      pending := none }

/-- The operations that touch `session.pendingRequest`. -/
inductive IFOp where
  | start (c : Nat)
  | refreshPerm (hasAcpSessionId : Bool) (perm : Nat)
  | finish
  | cancelReq
deriving DecidableEq, Repr

def applyIFOp (s : InFlightLedger) : IFOp → InFlightLedger
  | .start c => startPrompt s c
  | .refreshPerm h p => refreshPermissionContext s h p
  | .finish => finishRequest s
  | .cancelReq => cancelPendingRequest s

def applyIFOps (s : InFlightLedger) (ops : List IFOp) : InFlightLedger :=
  ops.foldl applyIFOp s

/-- A created record is live while its source is neither cancelled nor its
record retired by request completion. -/
def liveRequest (s : InFlightLedger) (id : Nat) : Prop :=
  id ∈ s.created ∧ id ∉ s.cancelled ∧ id ∉ s.retired

/-- The at-most-one-in-flight invariant: every live record is the one in
the session's `pendingRequest` slot. -/
def InFlightInv (s : InFlightLedger) : Prop :=
  ∀ id : Nat, liveRequest s id → ∃ p : InFlight,
    s.pending = some p ∧ p.cancelId = id

theorem applyIFOp_preserves_inv (s : InFlightLedger) (op : IFOp)
    (hinv : InFlightInv s) : InFlightInv (applyIFOp s op) := by
  have hdead : ∀ id : Nat, s.pending = none → liveRequest s id → False := by
    intro id hp hlive
    obtain ⟨p, hps, _⟩ := hinv id hlive
    rw [hp] at hps
    exact Option.noConfusion hps
  cases op with
  | start c =>
    intro id hlive
    cases hp : s.pending with
    | none =>
      simp only [applyIFOp, startPrompt, cancelPendingRequest, hp,
        liveRequest, List.mem_cons] at hlive ⊢
      obtain ⟨hc | hc, hnc, hnr⟩ := hlive
      · exact ⟨_, rfl, hc.symm⟩
      · exact absurd ⟨hc, hnc, hnr⟩ (hdead id hp)
    | some p₀ =>
      simp only [applyIFOp, startPrompt, cancelPendingRequest, hp,
        liveRequest, List.mem_cons, not_or] at hlive ⊢
      obtain ⟨hc | hc, ⟨hne, hnc⟩, hnr⟩ := hlive
      · exact ⟨_, rfl, hc.symm⟩
      · obtain ⟨p, hps, hpc⟩ := hinv id ⟨hc, hnc, hnr⟩
        rw [hp] at hps
        cases hps
        exact absurd hpc.symm hne
  | refreshPerm h perm =>
    intro id hlive
    cases hp : s.pending with
    | none =>
      simp only [applyIFOp, refreshPermissionContext, hp,
        liveRequest] at hlive ⊢
      exact absurd hlive (by
        intro hl
        exact hdead id hp hl)
    | some p₀ =>
      simp only [applyIFOp, refreshPermissionContext, hp,
        liveRequest] at hlive ⊢
      cases h with
      | true =>
        simp only [if_pos rfl] at hlive ⊢
        obtain ⟨p, hps, hpc⟩ := hinv id hlive
        rw [hp] at hps
        cases hps
        exact ⟨_, rfl, hpc⟩
      | false =>
        simp only [Bool.false_eq_true, if_false] at hlive ⊢
        obtain ⟨p, hps, hpc⟩ := hinv id hlive
        rw [hp] at hps
        cases hps
        exact ⟨_, rfl, hpc⟩
  | finish =>
    intro id hlive
    cases hp : s.pending with
    | none =>
      simp only [applyIFOp, finishRequest, hp, liveRequest] at hlive ⊢
      exact absurd hlive (fun hl => hdead id hp hl)
    | some p₀ =>
      simp only [applyIFOp, finishRequest, hp, liveRequest,
        List.mem_cons, not_or] at hlive
      obtain ⟨hc, hnc, hne, hnr⟩ := hlive
      obtain ⟨p, hps, hpc⟩ := hinv id ⟨hc, hnc, hnr⟩
      rw [hp] at hps
      cases hps
      exact absurd hpc.symm hne
  | cancelReq =>
    intro id hlive
    cases hp : s.pending with
    | none =>
      simp only [applyIFOp, cancelPendingRequest, hp, liveRequest] at hlive ⊢
      exact absurd hlive (fun hl => hdead id hp hl)
    | some p₀ =>
      simp only [applyIFOp, cancelPendingRequest, hp, liveRequest,
        List.mem_cons, not_or] at hlive
      obtain ⟨hc, ⟨hne, hnc⟩, hnr⟩ := hlive
      obtain ⟨p, hps, hpc⟩ := hinv id ⟨hc, hnc, hnr⟩
      rw [hp] at hps
      cases hps
      exact absurd hpc.symm hne

/-- C7: starting a new prompt on a session always cancels the previous
pending record's cancellation source and disposes its permission binding,
installing the fresh record only in the already-cleared slot; consequently,
along every sequence of in-flight operations from a state satisfying the
at-most-one invariant, every live record is the unique record in the
session's single `pendingRequest` slot (so at most one in-flight request is
live at every observation point). -/
theorem C7_at_most_one_inflight_request :
    (∀ (s : InFlightLedger) (c : Nat) (p : InFlight), s.pending = some p →
      p.cancelId ∈ (startPrompt s c).cancelled ∧
      (∀ q : Nat, p.permId = some q → q ∈ (startPrompt s c).disposed) ∧
      (startPrompt s c).pending = some { cancelId := c, permId := none } ∧
      startPrompt s c =
        { cancelPendingRequest s with
            pending := some { cancelId := c, permId := none },
            created := c :: (cancelPendingRequest s).created }) ∧
    (∀ (ops : List IFOp) (s₀ : InFlightLedger), InFlightInv s₀ →
      InFlightInv (applyIFOps s₀ ops) ∧
      ∀ id₁ id₂ : Nat, liveRequest (applyIFOps s₀ ops) id₁ →
        liveRequest (applyIFOps s₀ ops) id₂ → id₁ = id₂) := by
  constructor
  · intro s c p hp
    refine ⟨?_, ?_, rfl, rfl⟩
    · simp [startPrompt, cancelPendingRequest, hp]
    · intro q hq
      simp [startPrompt, cancelPendingRequest, hp, hq]
  · intro ops s₀ hinv
    have hmain : InFlightInv (applyIFOps s₀ ops) := by
      induction ops generalizing s₀ with
      | nil => exact hinv
      | cons op rest ih =>
        exact ih (applyIFOp s₀ op) (applyIFOp_preserves_inv s₀ op hinv)
    refine ⟨hmain, ?_⟩
    intro id₁ id₂ h₁ h₂
    obtain ⟨p₁, hp₁, hc₁⟩ := hmain id₁ h₁
    obtain ⟨p₂, hp₂, hc₂⟩ := hmain id₂ h₂
    rw [hp₁] at hp₂
    cases hp₂
    rw [← hc₁, ← hc₂]

/-- Witness for C7 at a concrete input: a session with a pending record
(source 0, binding 5) over which a new prompt (source 1) starts, then a
finished first turn followed by a second prompt, starting from the empty
ledger. -/
theorem C7_at_most_one_inflight_request_witness :
    (({ pending := some { cancelId := 0, permId := some 5 },
        cancelled := [], disposed := [], retired := [],
        created := [0] } : InFlightLedger).pending =
      some { cancelId := 0, permId := some 5 }) ∧
    (0 ∈ (startPrompt
      { pending := some { cancelId := 0, permId := some 5 },
        cancelled := [], disposed := [], retired := [], created := [0] }
      1).cancelled) ∧
    InFlightInv (applyIFOps
      { pending := none, cancelled := [], disposed := [], retired := [],
        created := [] }
      [.start 0, .refreshPerm true 5, .finish, .start 1]) := by
  refine ⟨rfl, ?_, ?_⟩
  · exact ((C7_at_most_one_inflight_request).1
      { pending := some { cancelId := 0, permId := some 5 },
        cancelled := [], disposed := [], retired := [], created := [0] }
      1 { cancelId := 0, permId := some 5 } rfl).1
  · exact ((C7_at_most_one_inflight_request).2
      [.start 0, .refreshPerm true 5, .finish, .start 1]
      { pending := none, cancelled := [], disposed := [], retired := [],
        created := [] }
      (by intro id hlive; exact absurd hlive.1 (by simp))).1

/-! ## Connection Manager lifecycle (src/acpClient.ts, AcpClientImpl
ensureReady / createConnection / ensureAgentRunning / stopProcess, the
variant with `ClientMode`)

Process handles are numbered by spawn order (`spawnCount`); `killed`
records each handle passed to `.kill()`.  `ensureReady(expectedMode)`
returns the existing ready promise only when the current mode matches the
expected one; otherwise it runs `stopProcess()` and builds a fresh
connection in the expected mode.  The success path of the handshake is
modelled (failures reset `readyPromise`, which the frame claim does not
exercise). -/

inductive ClientMode where
  | newSession
  | loadSession
deriving DecidableEq, Repr

structure ConnState where
  agentProcess : Option Nat
  connection : Option Nat
  readyPromise : Bool
  mode : ClientMode
  spawnCount : Nat
  killed : List Nat
deriving DecidableEq, Repr

/-- Shallow embedding of `stopProcess`: kill a live process, then null the
process, connection and ready promise. -/
def stopProcess (s : ConnState) : ConnState :=
  match s.agentProcess with
  | some pid =>
    { s with killed := pid :: s.killed, agentProcess := none,
             connection := none, readyPromise := false }
  | none =>
    { s with agentProcess := none, connection := none, readyPromise := false }

/-- Shallow embedding of `ensureAgentRunning`: reuse a live process, else
spawn the next one. -/
def ensureAgentRunning (s : ConnState) : ConnState :=
  match s.agentProcess with
  | some _ => s
  | none =>
    { s with agentProcess := some s.spawnCount, spawnCount := s.spawnCount + 1 }

/-- Shallow embedding of `createConnection(mode)` (success path): ensure
the process runs, wire a connection over its stdio, handshake, record the
mode. -/
def createConnection (s : ConnState) (mode : ClientMode) : ConnState :=
  let s1 := ensureAgentRunning s
  { s1 with connection := s1.agentProcess, readyPromise := true, mode := mode }

/-- Shallow embedding of `ensureReady(expectedMode)`. -/
def ensureReady (s : ConnState) (expectedMode : ClientMode) : ConnState :=
  if s.readyPromise = true ∧ s.mode = expectedMode then s
  else createConnection (stopProcess s) expectedMode

/-- `createSession` readies the connection in new-session mode. -/
def clientCreateSession (s : ConnState) : ConnState := ensureReady s .newSession

/-- `loadSession` readies the connection in load-session mode. -/
def clientLoadSession (s : ConnState) : ConnState := ensureReady s .loadSession

/-- `prompt` readies the connection in its current mode. -/
def clientPrompt (s : ConnState) : ConnState := ensureReady s s.mode

/-- C8 evaluated on the code: from a ready connection in new-session mode
with live process 0, calling `loadSession` kills process 0 and spawns
process 1 — switching between creating and loading a session restarts the
agent process, contradicting the claim (a repeated `prompt` or
`createSession` in the matching mode does reuse the connection unchanged).
-/
theorem C8_mode_switch_restarts_process :
    clientLoadSession
        { agentProcess := some 0, connection := some 0, readyPromise := true,
          mode := .newSession, spawnCount := 1, killed := [] } =
      { agentProcess := some 1, connection := some 1, readyPromise := true,
        mode := .loadSession, spawnCount := 2, killed := [0] } ∧
    clientPrompt
        { agentProcess := some 0, connection := some 0, readyPromise := true,
          mode := .newSession, spawnCount := 1, killed := [] } =
      { agentProcess := some 0, connection := some 0, readyPromise := true,
        mode := .newSession, spawnCount := 1, killed := [] } ∧
    clientCreateSession
        { agentProcess := some 0, connection := some 0, readyPromise := true,
          mode := .newSession, spawnCount := 1, killed := [] } =
      { agentProcess := some 0, connection := some 0, readyPromise := true,
        mode := .newSession, spawnCount := 1, killed := [] } := by
  refine ⟨by decide, by decide, by decide⟩

/-! ## Turn Builder (src/turnBuilder.ts, TurnBuilder.processNotification,
the variant with `captureUserMessageChunk`/`captureAgentMessageChunk`)

The builder state is the pending user text buffer, the agent chunk list,
the open agent parts and the finished turns.  The claim concerns the two
message-chunk update kinds and the explicitly ignored kinds; the
thought/tool/plan handlers (which only ever push further agent parts after
the same user-side flush) are outside the fed sequences and not modelled.
Chunk content is a text block or a non-text block (`getContentText`
returns undefined for the latter). -/

/-- A notification content block as tested by `getContentText`. -/
inductive TBContent where
  | text (s : List Char)
  | nonText
deriving DecidableEq, Repr

/-- The session-update kinds fed to the builder in the claim. -/
inductive TBUpdate where
  | userMessageChunk (content : TBContent)
  | agentMessageChunk (content : TBContent)
  /-- available_commands_update, current_mode_update, config_option_update,
  session_info_update: ignored for history -/
  | ignoredUpdate
deriving DecidableEq, Repr

/-- A rendered agent response part (markdown from joined chunks). -/
inductive AgentPart where
  | markdown (s : List Char)
deriving DecidableEq, Repr

/-- A reconstructed turn: ChatRequestTurn2 (user) or ChatResponseTurn2
(agent). -/
inductive Turn where
  | user (text : List Char)
  | agent (parts : List AgentPart)
deriving DecidableEq, Repr

/-- Mutable fields of `TurnBuilder` (user references and response metadata
carry no text and are omitted). -/
structure TBState where
  currentUserMessage : List Char
  agentMessageChunks : List (List Char)
  currentAgentParts : List AgentPart
  turns : List Turn
deriving DecidableEq, Repr

def initTBState : TBState :=
  { currentUserMessage := [], agentMessageChunks := [],
    currentAgentParts := [], turns := [] }

/-- JS `\s` whitespace on the characters that can appear here (space, tab,
newline, carriage return, vertical tab, form feed, no-break space). -/
def isJsWs (c : Char) : Bool :=
  c == ' ' || c == '\t' || c == '\n' || c == '\r' ||
    c == Char.ofNat 11 || c == Char.ofNat 12 || c == Char.ofNat 160

/-- JS `text.trim() !== ""`: some character is not whitespace. -/
def trimNonempty (cs : List Char) : Bool := cs.any fun c => !(isJsWs c)

/-- `getContentText`: the text of a text block, undefined otherwise. -/
def getContentText : TBContent → Option (List Char)
  | .text s => some s
  | .nonText => none

/-- The `text.replace(/^User:\s*/, "")` normalization applied when the
chunk starts with "User:": drop the five tag characters and the following
whitespace run. -/
def stripUserTag (text : List Char) : List Char :=
  (text.drop 5).dropWhile isJsWs

/-- Normalized user chunk text as appended to the buffer. -/
def userNormalize (text : List Char) : List Char :=
  if listIsPrefixB "User:".data text then stripUserTag text else text

/-- Shallow embedding of `captureUserMessageChunk` (an empty or non-text
content is falsy and captured as nothing). -/
def captureUserMessageChunk (st : TBState) (content : TBContent) : TBState :=
  match getContentText content with
  | none => st
  | some text =>
    if text = [] then st
    else { st with currentUserMessage := st.currentUserMessage ++ userNormalize text }

/-- Shallow embedding of `captureAgentMessageChunk`. -/
def captureAgentMessageChunk (st : TBState) (content : TBContent) : TBState :=
  match getContentText content with
  | none => st
  | some text =>
    if text = [] then st
    else { st with agentMessageChunks := st.agentMessageChunks ++ [text] }

/-- Shallow embedding of `flushPendingUserMessage`: a buffer that trims to
nothing stays; otherwise it becomes a finalized user turn. -/
def flushPendingUserMessage (st : TBState) : TBState :=
  if trimNonempty st.currentUserMessage then
    { st with turns := st.turns ++ [.user st.currentUserMessage],
              currentUserMessage := [] }
  else st

/-- Shallow embedding of `flushAgentMessageChunksToMarkdown`: joined chunks
become one markdown part. -/
def flushAgentChunksToMarkdown (st : TBState) : TBState :=
  if st.agentMessageChunks = [] then st
  else { st with
    currentAgentParts :=
      st.currentAgentParts ++ [.markdown st.agentMessageChunks.flatten],
    agentMessageChunks := [] }

/-- Shallow embedding of `flushPendingAgentMessage`: flush chunks to
markdown, then finalize the collected parts into an agent turn. -/
def flushPendingAgentMessage (st : TBState) : TBState :=
  let st1 := flushAgentChunksToMarkdown st
  if st1.currentAgentParts = [] then st1
  else { st1 with turns := st1.turns ++ [.agent st1.currentAgentParts],
                  currentAgentParts := [] }

/-- Shallow embedding of `TurnBuilder.processNotification` on the modelled
update kinds: a chunk of one role first flushes the other role's pending
state, then captures its content. -/
def processNotification (st : TBState) : TBUpdate → TBState
  | .userMessageChunk content =>
    captureUserMessageChunk (flushPendingAgentMessage st) content
  | .agentMessageChunk content =>
    captureAgentMessageChunk (flushPendingUserMessage st) content
  | .ignoredUpdate => st

/-- Shallow embedding of `TurnBuilder.getTurns`: flush both pending sides,
return the turns. -/
def getTurns (st : TBState) : List Turn :=
  (flushPendingAgentMessage (flushPendingUserMessage st)).turns

/-- Feed a notification sequence through a fresh builder and read the
reconstructed transcript. -/
def buildTurns (ns : List TBUpdate) : List Turn :=
  getTurns (ns.foldl processNotification initTBState)

def turnIsUser : Turn → Bool
  | .user _ => true
  | .agent _ => false

/-- Two adjacent turns never share a role. -/
def rolesAlternate : List Turn → Bool
  | [] => true
  | [_] => true
  | a :: b :: rest => (turnIsUser a != turnIsUser b) && rolesAlternate (b :: rest)

/-- A user buffer that would flush into a turn is pending. -/
def uPending (st : TBState) : Prop := trimNonempty st.currentUserMessage = true

/-- Agent content (chunks or parts) that would flush into a turn is
pending. -/
def aPending (st : TBState) : Prop :=
  st.agentMessageChunks ≠ [] ∨ st.currentAgentParts ≠ []

/-- Role of the last finished turn, if any (true = user). -/
def lastRole (st : TBState) : Option Bool := st.turns.getLast?.map turnIsUser

/-- Invariant maintained by chunk processing on non-degenerate chunk
streams: finished turns alternate, at most one side is pending, a pending
side never follows a finished turn of its own role, and a finished turn's
role always has the opposite side pending. -/
def TBInv (st : TBState) : Prop :=
  rolesAlternate st.turns = true ∧
  ¬(uPending st ∧ aPending st) ∧
  (uPending st → lastRole st ≠ some true) ∧
  (aPending st → lastRole st ≠ some false) ∧
  (lastRole st = some true → aPending st) ∧
  (lastRole st = some false → uPending st)

/-- Chunks that keep the stream non-degenerate: user chunks whose
normalized text survives trimming, agent chunks with nonempty text, and
the ignored update kinds. -/
def goodChunk : TBUpdate → Prop
  | .userMessageChunk (.text s) => trimNonempty (userNormalize s) = true
  | .userMessageChunk .nonText => False
  | .agentMessageChunk (.text s) => s ≠ []
  | .agentMessageChunk .nonText => False
  | .ignoredUpdate => True

theorem rolesAlternate_append (ts : List Turn) (t : Turn)
    (h : rolesAlternate ts = true)
    (hl : ∀ tl : Turn, ts.getLast? = some tl → turnIsUser tl ≠ turnIsUser t) :
    rolesAlternate (ts ++ [t]) = true := by
  induction ts with
  | nil => simp [rolesAlternate]
  | cons a rest ih =>
    cases rest with
    | nil =>
      have hne := hl a (by simp)
      simp only [List.cons_append, List.nil_append, rolesAlternate,
        Bool.and_eq_true, bne_iff_ne]
      exact ⟨hne, by simp [rolesAlternate]⟩
    | cons b rest' =>
      simp only [rolesAlternate, Bool.and_eq_true] at h
      have hres := ih h.2 (fun tl htl => hl tl (by
        rw [List.getLast?_cons_cons]
        exact htl))
      simp only [List.cons_append, rolesAlternate, Bool.and_eq_true]
      exact ⟨h.1, by simpa using hres⟩

theorem flushUser_of_pending (st : TBState) (h : uPending st) :
    flushPendingUserMessage st =
      { st with turns := st.turns ++ [.user st.currentUserMessage],
                currentUserMessage := [] } := by
  have h' : trimNonempty st.currentUserMessage = true := h
  simp [flushPendingUserMessage, h']

theorem flushUser_of_not (st : TBState) (h : ¬ uPending st) :
    flushPendingUserMessage st = st := by
  simp [uPending] at h
  simp [flushPendingUserMessage, h]

theorem flushAgent_of_pending (st : TBState) (h : aPending st) :
    ∃ P : List AgentPart, P ≠ [] ∧ flushPendingAgentMessage st =
      { st with turns := st.turns ++ [.agent P],
                agentMessageChunks := [], currentAgentParts := [] } := by
  cases hch : st.agentMessageChunks with
  | nil =>
    have hparts : st.currentAgentParts ≠ [] := by
      rcases h with h | h
      · exact absurd hch h
      · exact h
    refine ⟨st.currentAgentParts, hparts, ?_⟩
    simp [flushPendingAgentMessage, flushAgentChunksToMarkdown, hch, hparts]
  | cons c cs =>
    refine ⟨st.currentAgentParts ++ [.markdown (c :: cs).flatten], by simp, ?_⟩
    simp [flushPendingAgentMessage, flushAgentChunksToMarkdown, hch]

theorem flushAgent_of_not (st : TBState) (h : ¬ aPending st) :
    flushPendingAgentMessage st = st := by
  simp only [aPending, not_or, not_not] at h
  obtain ⟨hch, hparts⟩ := h
  simp [flushPendingAgentMessage, flushAgentChunksToMarkdown, hch, hparts]

theorem captureUser_text (st : TBState) (s : List Char) (hs : s ≠ []) :
    captureUserMessageChunk st (.text s) =
      { st with currentUserMessage := st.currentUserMessage ++ userNormalize s } := by
  simp [captureUserMessageChunk, getContentText, hs]

theorem captureAgent_text (st : TBState) (s : List Char) (hs : s ≠ []) :
    captureAgentMessageChunk st (.text s) =
      { st with agentMessageChunks := st.agentMessageChunks ++ [s] } := by
  simp [captureAgentMessageChunk, getContentText, hs]

theorem TBInv_step (st : TBState) (u : TBUpdate) (hg : goodChunk u)
    (hinv : TBInv st) : TBInv (processNotification st u) := by
  obtain ⟨halt, hmux, hulast, halast, hlastu, hlasta⟩ := hinv
  cases u with
  | ignoredUpdate => exact ⟨halt, hmux, hulast, halast, hlastu, hlasta⟩
  | userMessageChunk content =>
    cases content with
    | nonText => exact absurd hg (by simp [goodChunk])
    | text s =>
      have hs : trimNonempty (userNormalize s) = true := hg
      have hsne : s ≠ [] := by
        intro he
        subst he
        exact absurd hs (by decide)
      have huP : ∀ rest : List Char,
          trimNonempty (rest ++ userNormalize s) = true := by
        intro rest
        simp only [trimNonempty, List.any_append, Bool.or_eq_true]
        right
        exact hs
      by_cases hA : aPending st
      · obtain ⟨P, hP, hflush⟩ := flushAgent_of_pending st hA
        simp only [processNotification]
        rw [hflush, captureUser_text _ _ hsne]
        have hlastP : ∀ tl : Turn, st.turns.getLast? = some tl →
            turnIsUser tl ≠ turnIsUser (.agent P) := by
          intro tl htl hcontra
          apply halast hA
          have hfalse : turnIsUser tl = false := by rw [hcontra]; rfl
          simp [lastRole, htl, hfalse]
        refine ⟨?_, ?_, ?_, ?_, ?_, ?_⟩
        · simpa using rolesAlternate_append st.turns (.agent P) halt hlastP
        · intro hand
          rcases hand.2 with hbad | hbad <;> simp at hbad
        · intro _
          simp [lastRole, turnIsUser]
        · intro hbad
          rcases hbad with hbad | hbad <;> simp at hbad
        · intro hbad
          simp [lastRole, turnIsUser] at hbad
        · intro _
          exact huP st.currentUserMessage
      · rw [show processNotification st (.userMessageChunk (.text s)) =
            captureUserMessageChunk (flushPendingAgentMessage st) (.text s)
            from rfl, flushAgent_of_not st hA, captureUser_text _ _ hsne]
        refine ⟨halt, ?_, ?_, ?_, ?_, ?_⟩
        · intro hand
          exact hA hand.2
        · intro _ hcontra
          exact hA (hlastu hcontra)
        · intro hbad
          exact absurd hbad hA
        · intro hlast
          exact absurd (hlastu hlast) hA
        · intro _
          exact huP st.currentUserMessage
  | agentMessageChunk content =>
    cases content with
    | nonText => exact absurd hg (by simp [goodChunk])
    | text s =>
      have hsne : s ≠ [] := hg
      by_cases hU : uPending st
      · have hflush := flushUser_of_pending st hU
        simp only [processNotification]
        rw [hflush, captureAgent_text _ _ hsne]
        have hlastP : ∀ tl : Turn, st.turns.getLast? = some tl →
            turnIsUser tl ≠ turnIsUser (.user st.currentUserMessage) := by
          intro tl htl hcontra
          apply hulast hU
          have htrue : turnIsUser tl = true := by rw [hcontra]; rfl
          simp [lastRole, htl, htrue]
        have hnA : ¬ aPending st := fun ha => hmux ⟨hU, ha⟩
        simp only [aPending, not_or, not_not] at hnA
        refine ⟨?_, ?_, ?_, ?_, ?_, ?_⟩
        · simpa using rolesAlternate_append st.turns
            (.user st.currentUserMessage) halt hlastP
        · intro hand
          have := hand.1
          simp [uPending, trimNonempty] at this
        · intro hbad
          simp [uPending, trimNonempty] at hbad
        · intro _
          simp [lastRole, turnIsUser]
        · intro _
          left
          simp
        · intro hbad
          simp [lastRole, turnIsUser] at hbad
      · rw [show processNotification st (.agentMessageChunk (.text s)) =
            captureAgentMessageChunk (flushPendingUserMessage st) (.text s)
            from rfl, flushUser_of_not st hU, captureAgent_text _ _ hsne]
        refine ⟨halt, ?_, ?_, ?_, ?_, ?_⟩
        · intro hand
          exact hU hand.1
        · intro hbad
          exact absurd hbad hU
        · intro _ hcontra
          exact hU (hlasta hcontra)
        · intro _
          left
          simp
        · intro hlast
          exact absurd (hlasta hlast) hU

theorem TBInv_init : TBInv initTBState := by
  refine ⟨rfl, ?_, ?_, ?_, ?_, ?_⟩
  · intro hand
    have := hand.1
    simp [uPending, trimNonempty, initTBState] at this
  · intro hbad
    simp [uPending, trimNonempty, initTBState] at hbad
  · intro hbad
    rcases hbad with h | h <;> simp [initTBState] at h
  · intro hbad
    simp [lastRole, initTBState] at hbad
  · intro hbad
    simp [lastRole, initTBState] at hbad

theorem getTurns_alternate (st : TBState) (hinv : TBInv st) :
    rolesAlternate (getTurns st) = true := by
  obtain ⟨halt, hmux, hulast, halast, hlastu, hlasta⟩ := hinv
  by_cases hU : uPending st
  · have hflush := flushUser_of_pending st hU
    have hnA : ¬ aPending st := fun ha => hmux ⟨hU, ha⟩
    have halt1 : rolesAlternate (st.turns ++ [.user st.currentUserMessage]) = true := by
      apply rolesAlternate_append st.turns _ halt
      intro tl htl hcontra
      apply hulast hU
      have htrue : turnIsUser tl = true := by rw [hcontra]; rfl
      simp [lastRole, htl, htrue]
    have hnA1 : ¬ aPending { st with
        turns := st.turns ++ [.user st.currentUserMessage],
        currentUserMessage := [] } := by
      intro hbad
      exact hnA hbad
    simp only [getTurns]
    rw [hflush, flushAgent_of_not _ hnA1]
    exact halt1
  · have hflush := flushUser_of_not st hU
    simp only [getTurns]
    rw [hflush]
    by_cases hA : aPending st
    · obtain ⟨P, hP, hflushA⟩ := flushAgent_of_pending st hA
      rw [hflushA]
      apply rolesAlternate_append st.turns _ halt
      intro tl htl hcontra
      apply halast hA
      have hfalse : turnIsUser tl = false := by rw [hcontra]; rfl
      simp [lastRole, htl, hfalse]
    · rw [flushAgent_of_not st hA]
      exact halt

theorem TBInv_fold (ns : List TBUpdate) (st : TBState)
    (h : ∀ u ∈ ns, goodChunk u) (hinv : TBInv st) :
    TBInv (ns.foldl processNotification st) := by
  induction ns generalizing st with
  | nil => exact hinv
  | cons u rest ih =>
    simp only [List.foldl_cons]
    exact ih (processNotification st u)
      (fun v hv => h v (List.mem_cons_of_mem u hv))
      (TBInv_step st u (h u (List.mem_cons_self u rest)) hinv)

/-- Own-role buffers are untouched by the other role's flush. -/
theorem flush_preserves_other_buffer (st : TBState) :
    (flushPendingAgentMessage st).currentUserMessage = st.currentUserMessage ∧
    (flushPendingUserMessage st).agentMessageChunks = st.agentMessageChunks := by
  constructor
  · by_cases h : aPending st
    · obtain ⟨P, _, hflush⟩ := flushAgent_of_pending st h
      rw [hflush]
    · rw [flushAgent_of_not st h]
  · by_cases h : uPending st
    · rw [flushUser_of_pending st h]
    · rw [flushUser_of_not st h]

/-- C5 counterexample: the claim's universally-quantified alternation fails
on degenerate chunks.  Feeding agent "x", user " " (whitespace only, never
flushed into a turn), agent "y" produces two adjacent agent turns. -/
theorem C5_turn_alternation_counterexample :
    buildTurns
        [.agentMessageChunk (.text ['x']),
         .userMessageChunk (.text [' ']),
         .agentMessageChunk (.text ['y'])] =
      [.agent [.markdown ['x']], .agent [.markdown ['y']]] ∧
    rolesAlternate
        (buildTurns
          [.agentMessageChunk (.text ['x']),
           .userMessageChunk (.text [' ']),
           .agentMessageChunk (.text ['y'])]) = false := by
  constructor <;> decide

/-- C5 (amended): the concrete example reconstructs exactly three turns in
order, user chunks append to the user buffer (after the other role's
pending state is flushed) and agent chunks to the agent chunk list; a chunk
of the other role first flushes a pending buffer into a finalized turn; and
the reconstructed transcript strictly alternates user and agent turns for
every fed sequence of message chunks whose user texts survive trimming
(after the "User:"-tag normalization) and whose agent texts are nonempty
(with the ignored update kinds allowed anywhere). -/
theorem C5_turn_builder_alternation :
    buildTurns
        [.userMessageChunk (.text ['h', 'i']),
         .agentMessageChunk (.text ['h', 'e', 'l', 'l', 'o']),
         .userMessageChunk (.text ['b', 'y', 'e'])] =
      [.user ['h', 'i'], .agent [.markdown ['h', 'e', 'l', 'l', 'o']],
       .user ['b', 'y', 'e']] ∧
    (∀ (st : TBState) (s : List Char), s ≠ [] →
      listIsPrefixB "User:".data s = false →
      processNotification st (.userMessageChunk (.text s)) =
        { flushPendingAgentMessage st with
            currentUserMessage := st.currentUserMessage ++ s }) ∧
    (∀ (st : TBState) (s : List Char), s ≠ [] →
      processNotification st (.agentMessageChunk (.text s)) =
        { flushPendingUserMessage st with
            agentMessageChunks := st.agentMessageChunks ++ [s] }) ∧
    (∀ (st : TBState) (s : List Char),
      trimNonempty st.currentUserMessage = true → s ≠ [] →
      (processNotification st (.agentMessageChunk (.text s))).turns =
        st.turns ++ [.user st.currentUserMessage]) ∧
    (∀ (st : TBState) (s : List Char), aPending st → s ≠ [] →
      ∃ P : List AgentPart, P ≠ [] ∧
        (processNotification st (.userMessageChunk (.text s))).turns =
          st.turns ++ [.agent P]) ∧
    (∀ ns : List TBUpdate, (∀ u ∈ ns, goodChunk u) →
      rolesAlternate (buildTurns ns) = true) := by
  refine ⟨by decide, ?_, ?_, ?_, ?_, ?_⟩
  · intro st s hs htag
    simp only [processNotification]
    rw [captureUser_text _ _ hs]
    have hbuf := (flush_preserves_other_buffer st).1
    have hnorm : userNormalize s = s := by
      simp [userNormalize, htag]
    rw [hbuf, hnorm]
  · intro st s hs
    simp only [processNotification]
    rw [captureAgent_text _ _ hs]
    rw [(flush_preserves_other_buffer st).2]
  · intro st s hu hs
    simp only [processNotification]
    rw [captureAgent_text _ _ hs, flushUser_of_pending st hu]
  · intro st s ha hs
    obtain ⟨P, hP, hflush⟩ := flushAgent_of_pending st ha
    refine ⟨P, hP, ?_⟩
    simp only [processNotification]
    rw [captureUser_text _ _ hs, hflush]
  · intro ns hgood
    exact getTurns_alternate _ (TBInv_fold ns initTBState hgood TBInv_init)

/-- Witness for C5 at concrete inputs: the good-chunk hypotheses hold for
the three-chunk example, whose transcript alternates, and a fresh state plus
the chunk "hi" exercises the append conjunct. -/
theorem C5_turn_builder_alternation_witness :
    (∀ u ∈ [TBUpdate.userMessageChunk (.text ['h', 'i']),
            TBUpdate.agentMessageChunk (.text ['h', 'e', 'l', 'l', 'o']),
            TBUpdate.userMessageChunk (.text ['b', 'y', 'e'])], goodChunk u) ∧
    rolesAlternate (buildTurns
      [.userMessageChunk (.text ['h', 'i']),
       .agentMessageChunk (.text ['h', 'e', 'l', 'l', 'o']),
       .userMessageChunk (.text ['b', 'y', 'e'])]) = true ∧
    (['h', 'i'] ≠ ([] : List Char)) ∧
    processNotification initTBState (.userMessageChunk (.text ['h', 'i'])) =
      { flushPendingAgentMessage initTBState with
          currentUserMessage := initTBState.currentUserMessage ++ ['h', 'i'] } := by
  have hgood : ∀ u ∈ [TBUpdate.userMessageChunk (.text ['h', 'i']),
      TBUpdate.agentMessageChunk (.text ['h', 'e', 'l', 'l', 'o']),
      TBUpdate.userMessageChunk (.text ['b', 'y', 'e'])], goodChunk u := by
    intro u hu
    simp only [List.mem_cons, List.not_mem_nil, or_false] at hu
    rcases hu with rfl | rfl | rfl
    · exact (by decide : trimNonempty (userNormalize ['h', 'i']) = true)
    · exact (by decide : (['h', 'e', 'l', 'l', 'o'] : List Char) ≠ [])
    · exact (by decide : trimNonempty (userNormalize ['b', 'y', 'e']) = true)
  refine ⟨hgood, ?_, by decide, ?_⟩
  · exact C5_turn_builder_alternation.2.2.2.2.2 _ hgood
  · exact C5_turn_builder_alternation.2.1 initTBState ['h', 'i']
      (by decide) (by decide)
